import Mathlib

/-!
Verification of the magenta futex subsystem specification.

The repository ships the futex test battery (`system/utest/core/futex/futex.cpp`)
and the arm64 syscall veneer, but the kernel-side futex implementation itself is
not among the sources.  The data model and the three operations (`wait`, `wake`,
`requeue`) are therefore modelled from the specification (§3–§4) and the claims
are settled against that model.  Operations on a single key are linearized by the
bucket lock (§5), so the model presents each operation as an atomic step on the
kernel state.
-/

namespace Magenta.Futex

/-- Syscall status values of the futex operations (spec §6, §7). -/
inductive Status where
  | Ok
  | Busy
  | TimedOut
  | InvalidArgs
deriving DecidableEq, Repr

/-- Modelled from the spec: the kernel futex implementation is absent from the
sources, so the Key is modelled per §3 as the identifying value of a futex
location; within one address space it is the 32-bit-aligned address of the
futex word. -/
abbrev Key := Nat

/-- Modelled from the spec: the identifier of one blocked thread's Waiter
record (§3); the kernel futex implementation is absent from the sources. -/
abbrev WaiterId := Nat

/-- Modelled from the spec: the futex-relevant kernel state — the userspace
futex words, the FutexTable mapping each Key to its FIFO WaitQueue (head of the
list = front of the queue; an absent queue is the empty list, matching §3's
"empty queues are removed"), and each Waiter's mutable `key` field (§3, §4).
The kernel futex implementation is absent from the sources. -/
structure FutexState where
  mem : Key → Nat
  queues : Key → List WaiterId
  waiterKey : WaiterId → Key

/-- Modelled from the spec: §4.1 step 5 — append a stack-resident Waiter to the
WaitQueue for `addr` (creating the queue if absent) and record `addr` in the
Waiter's `key` field. -/
def enqueueWaiter (s : FutexState) (addr : Key) (w : WaiterId) : FutexState :=
  { s with
    queues := fun k => if k = addr then s.queues k ++ [w] else s.queues k,
    waiterKey := fun v => if v = w then addr else s.waiterKey v }

/-- Result of entering `wait`: either an immediate return with a status, or the
caller parked with its Waiter enqueued. -/
inductive WaitEnter where
  | ret (st : Status)
  | parked
deriving DecidableEq, Repr

/-- Modelled from the spec: §4.1 `wait(addr, expected, timeout)` up to the
parking point; the kernel futex implementation is absent from the sources.
The value compare happens under the bucket lock (step 4) and a mismatch returns
`Busy`; `timeout = some 0` returns `TimedOut` without blocking, without touching
the queue and without consuming a wakeup (§4.1 timeout semantics); otherwise the
Waiter is enqueued and the thread parks.  `timeout = none` is Infinite. -/
def futexWaitEnter (s : FutexState) (addr : Key) (expected : Nat)
    (timeout : Option Nat) (w : WaiterId) : WaitEnter × FutexState :=
  if s.mem addr ≠ expected then (WaitEnter.ret Status.Busy, s)
  else if timeout = some 0 then (WaitEnter.ret Status.TimedOut, s)
  else (WaitEnter.parked, enqueueWaiter s addr w)

/-- Modelled from the spec: §4.2 `wake(addr, count)`; the kernel futex
implementation is absent from the sources.  `count = none` is ∞ ("all").  Pops
up to `count` Waiters from the front of the queue for `addr`; the popped Waiters
are returned in the order they are woken (their `woken_by` becomes `Wake` and
their threads are unparked).  Waking zero waiters is not an error. -/
def futexWake (s : FutexState) (addr : Key) (count : Option Nat) :
    Status × List WaiterId × FutexState :=
  let q := s.queues addr
  let n := count.getD q.length
  (Status.Ok, q.take n,
    { s with queues := fun k => if k = addr then q.drop n else s.queues k })

/-- Modelled from the spec: §4.3 `requeue(addr_from, wake_count, expected,
addr_to, requeue_count)`; the kernel futex implementation is absent from the
sources.  Same-key requeue is rejected with `InvalidArgs` (step 1) before the
value is loaded; a value mismatch returns `Busy` (step 3); otherwise up to
`wake_count` front Waiters of `key_from` are woken (returned in order) and up to
`requeue_count` further front Waiters are moved to the back of `key_to`'s queue,
each moved Waiter's `key` field updated to `key_to` (steps 4–5).
`requeueCount = none` is ∞. -/
def futexRequeue (s : FutexState) (addrFrom : Key) (wakeCount : Nat)
    (expected : Nat) (addrTo : Key) (requeueCount : Option Nat) :
    Status × List WaiterId × FutexState :=
  if addrFrom = addrTo then (Status.InvalidArgs, [], s)
  else if s.mem addrFrom ≠ expected then (Status.Busy, [], s)
  else
    let q := s.queues addrFrom
    let woken := q.take wakeCount
    let rest := q.drop wakeCount
    let n := requeueCount.getD rest.length
    let moved := rest.take n
    (Status.Ok, woken,
      { s with
        queues := fun k =>
          if k = addrFrom then rest.drop n
          else if k = addrTo then s.queues k ++ moved
          else s.queues k,
        waiterKey := fun v => if v ∈ moved then addrTo else s.waiterKey v })

/-- Modelled from the spec: §4.1 step 7 — on a timeout (or spurious resume with
`woken_by` still `Unset`) the Waiter unlinks itself from the queue named by its
current `key` field, which may differ from the original key due to requeue. -/
def futexTimeout (s : FutexState) (w : WaiterId) : FutexState :=
  { s with
    queues := fun k =>
      if k = s.waiterKey w then (s.queues k).erase w else s.queues k }

/-- Modelled from the spec: the initial state of the §8 scenarios — every queue
empty, the futex words given by `m`. -/
def initState (m : Key → Nat) : FutexState :=
  { mem := m, queues := fun _ => [], waiterKey := fun _ => 0 }

/-- Enqueue the listed Waiters on `addr` in order, each one a `wait` call that
passed its value check and parked. -/
def enqueueAll (s : FutexState) (addr : Key) (ws : List WaiterId) : FutexState :=
  ws.foldl (fun t w => enqueueWaiter t addr w) s

/-- Scenario state for the wake-limit test: four waiters 1..4 enqueued in that
order on key 0 (`futex = 1`). -/
def wakeLimitState : FutexState :=
  enqueueAll (initState fun _ => 1) 0 [1, 2, 3, 4]

/-- Claim C1: `wake(addr, count)` wakes exactly `min count (queue length)`
waiters, the earliest-enqueued ones in FIFO order (`wake(addr, ∞)` wakes the
whole queue); with four waiters 1..4 enqueued in that order, `wake(addr, 2)`
wakes 1 and 2 and leaves 3 and 4 queued, and a subsequent `wake(addr, ∞)` wakes
3 then 4, emptying the queue. -/
theorem wake_count_fifo :
    (∀ (s : FutexState) (addr : Key) (c : Nat),
      (futexWake s addr (some c)).2.1 = (s.queues addr).take c ∧
      (futexWake s addr (some c)).2.1.length = min c (s.queues addr).length ∧
      (futexWake s addr (some c)).2.2.queues addr = (s.queues addr).drop c) ∧
    (∀ (s : FutexState) (addr : Key),
      (futexWake s addr none).2.1 = s.queues addr ∧
      (futexWake s addr none).2.2.queues addr = []) ∧
    ((futexWake wakeLimitState 0 (some 2)).2.1 = [1, 2] ∧
      (futexWake wakeLimitState 0 (some 2)).2.2.queues 0 = [3, 4] ∧
      (futexWake (futexWake wakeLimitState 0 (some 2)).2.2 0 none).2.1
        = [3, 4] ∧
      (futexWake (futexWake wakeLimitState 0 (some 2)).2.2 0 none).2.2.queues 0
        = []) := by
  refine ⟨fun s addr c => ⟨rfl, ?_, by simp [futexWake]⟩,
    fun s addr => ⟨by simp [futexWake], by simp [futexWake]⟩,
    by decide⟩
  simp [futexWake, List.length_take]

/-- Claim C6: when `*addr ≠ expected`, `wait(addr, expected, timeout)` returns
`Busy` for any timeout (Infinite included) and enqueues no waiter: the whole
state, hence the queue for the key (absent if it was absent), is unchanged. -/
theorem wait_value_mismatch_busy (s : FutexState) (addr : Key) (expected : Nat)
    (timeout : Option Nat) (w : WaiterId) (h : s.mem addr ≠ expected) :
    futexWaitEnter s addr expected timeout w = (WaitEnter.ret Status.Busy, s) := by
  simp [futexWaitEnter, h]

/-- Witness for C6: `futex = 123`, `wait(&futex, 124, Infinite)` → `Busy`,
state unchanged. -/
theorem wait_value_mismatch_busy_witness :
    (initState fun _ => 123).mem 0 ≠ 124 ∧
      futexWaitEnter (initState fun _ => 123) 0 124 none 1
        = (WaitEnter.ret Status.Busy, initState fun _ => 123) :=
  ⟨by decide, wait_value_mismatch_busy (initState fun _ => 123) 0 124 none 1
    (by decide)⟩

/-- Claim C7: when `*addr = expected`, `wait(addr, expected, 0)` returns
`TimedOut` without blocking and without consuming a wakeup, and the whole state,
hence the queue for the key, is unchanged. -/
theorem wait_poll_timed_out (s : FutexState) (addr : Key) (expected : Nat)
    (w : WaiterId) (h : s.mem addr = expected) :
    futexWaitEnter s addr expected (some 0) w
      = (WaitEnter.ret Status.TimedOut, s) := by
  simp [futexWaitEnter, h]

/-- Witness for C7: `futex = 123`, `wait(&futex, 123, 0)` → `TimedOut`,
state unchanged. -/
theorem wait_poll_timed_out_witness :
    (initState fun _ => 123).mem 0 = 123 ∧
      futexWaitEnter (initState fun _ => 123) 0 123 (some 0) 1
        = (WaitEnter.ret Status.TimedOut, initState fun _ => 123) :=
  ⟨by decide, wait_poll_timed_out (initState fun _ => 123) 0 123 1 (by decide)⟩

/-- Claim C8: a `requeue` whose loaded value at `addr_from` differs from
`expected` returns `Busy` with the state unchanged — no waiter woken, no waiter
moved.  (The value is only loaded once the same-key check of §4.3 step 1 has
passed, so the two keys are distinct.) -/
theorem requeue_value_mismatch_busy (s : FutexState) (a b : Key)
    (wc expected : Nat) (rc : Option Nat) (hne : a ≠ b)
    (h : s.mem a ≠ expected) :
    futexRequeue s a wc expected b rc = (Status.Busy, [], s) := by
  simp [futexRequeue, hne, h]

/-- Witness for C8: `A = 100`, `B = 200` at distinct keys,
`requeue(&A, 1, 101, &B, 1)` → `Busy`, state unchanged. -/
theorem requeue_value_mismatch_busy_witness :
    (0 : Key) ≠ 1 ∧ (initState fun k => 100 + 100 * k).mem 0 ≠ 101 ∧
      futexRequeue (initState fun k => 100 + 100 * k) 0 1 101 1 (some 1)
        = (Status.Busy, [], initState fun k => 100 + 100 * k) :=
  ⟨by decide, by decide,
    requeue_value_mismatch_busy (initState fun k => 100 + 100 * k) 0 1 1 101
      (some 1) (by decide) (by decide)⟩

/-- Scenario state for cross-address isolation: waiter 1 on key 0 (`&A`) and
waiter 2 on key 1 (`&B`), both words holding 1; key 2 is the dummy address. -/
def isolationState : FutexState :=
  enqueueWaiter (enqueueWaiter (initState fun _ => 1) 0 1) 1 2

/-- Claim C9: a wake on one key leaves the queue of every other key untouched;
with waiter 1 on `&A` and waiter 2 on `&B`, `wake(&dummy, ∞)` wakes neither,
and `wake(&A, ∞)` wakes only waiter 1 while waiter 2 stays queued. -/
theorem wake_other_keys_untouched :
    (∀ (s : FutexState) (addr : Key) (c : Option Nat) (k : Key), k ≠ addr →
      (futexWake s addr c).2.2.queues k = s.queues k) ∧
    ((futexWake isolationState 2 none).2.1 = [] ∧
      (futexWake isolationState 2 none).2.2.queues 0 = [1] ∧
      (futexWake isolationState 2 none).2.2.queues 1 = [2] ∧
      (futexWake (futexWake isolationState 2 none).2.2 0 none).2.1 = [1] ∧
      (futexWake (futexWake isolationState 2 none).2.2 0 none).2.2.queues 1
        = [2]) := by
  refine ⟨fun s addr c k hk => by simp [futexWake, hk], by decide⟩

/-- Witness for C9: waking key 0 of the isolation state leaves key 1's queue
unchanged. -/
theorem wake_other_keys_untouched_witness :
    (1 : Key) ≠ 0 ∧
      (futexWake isolationState 0 none).2.2.queues 1 = isolationState.queues 1 :=
  ⟨by decide, wake_other_keys_untouched.1 isolationState 0 none 1 (by decide)⟩

/-- Scenario state for the requeue test: six waiters 1..6 enqueued in that
order on key 0 (`&A`, `A = 100`); key 1 is `&B`. -/
def requeueState : FutexState :=
  enqueueAll (initState fun _ => 100) 0 [1, 2, 3, 4, 5, 6]

/-- Claim C2: with `*addr_from = expected` and distinct keys,
`requeue(addr_from, wake_count, expected, addr_to, requeue_count)` returns `Ok`,
wakes the front `wake_count` waiters of `key_from`, appends the next
`requeue_count` to the back of `key_to`'s queue and leaves the remainder on
`key_from`; with six waiters 1..6, `requeue(&A, 3, 100, &B, 2)` wakes 1..3,
puts 4 and 5 on `&B` (so `wake(&B, ∞)` wakes exactly them) and leaves 6 on `&A`
(so `wake(&A, 1)` wakes 6). -/
theorem requeue_wake_and_move :
    (∀ (s : FutexState) (a b : Key) (wc rc expected : Nat),
      a ≠ b → s.mem a = expected →
      (futexRequeue s a wc expected b (some rc)).1 = Status.Ok ∧
      (futexRequeue s a wc expected b (some rc)).2.1 = (s.queues a).take wc ∧
      (futexRequeue s a wc expected b (some rc)).2.2.queues b
        = s.queues b ++ ((s.queues a).drop wc).take rc ∧
      (futexRequeue s a wc expected b (some rc)).2.2.queues a
        = ((s.queues a).drop wc).drop rc) ∧
    ((futexRequeue requeueState 0 3 100 1 (some 2)).1 = Status.Ok ∧
      (futexRequeue requeueState 0 3 100 1 (some 2)).2.1 = [1, 2, 3] ∧
      (futexRequeue requeueState 0 3 100 1 (some 2)).2.2.queues 1 = [4, 5] ∧
      (futexRequeue requeueState 0 3 100 1 (some 2)).2.2.queues 0 = [6] ∧
      (futexWake (futexRequeue requeueState 0 3 100 1 (some 2)).2.2 1 none).2.1
        = [4, 5] ∧
      (futexWake
        (futexWake (futexRequeue requeueState 0 3 100 1 (some 2)).2.2 1
          none).2.2 0 (some 1)).2.1 = [6]) := by
  refine ⟨fun s a b wc rc expected hab hv => ?_, by decide⟩
  have hba : ¬b = a := fun h => hab h.symm
  exact ⟨by simp [futexRequeue, hab, hv], by simp [futexRequeue, hab, hv],
    by simp [futexRequeue, hab, hv, hba], by simp [futexRequeue, hab, hv]⟩

/-- Witness for C2: the general requeue split applied to the six-waiter
scenario state with `wake_count = 3`, `requeue_count = 2`. -/
theorem requeue_wake_and_move_witness :
    (0 : Key) ≠ 1 ∧ requeueState.mem 0 = 100 ∧
      ((futexRequeue requeueState 0 3 100 1 (some 2)).1 = Status.Ok ∧
        (futexRequeue requeueState 0 3 100 1 (some 2)).2.1
          = (requeueState.queues 0).take 3 ∧
        (futexRequeue requeueState 0 3 100 1 (some 2)).2.2.queues 1
          = requeueState.queues 1 ++ ((requeueState.queues 0).drop 3).take 2 ∧
        (futexRequeue requeueState 0 3 100 1 (some 2)).2.2.queues 0
          = ((requeueState.queues 0).drop 3).drop 2) :=
  ⟨by decide, by decide,
    requeue_wake_and_move.1 requeueState 0 1 3 2 100 (by decide) (by decide)⟩

/-- Scenario state for requeue-then-timeout: one timed waiter 1 on key 0
(`&A`, `A = 100`); key 1 is `&B`. -/
def requeueTimedState : FutexState :=
  enqueueAll (initState fun _ => 100) 0 [1]

/-- Claim C3: every waiter moved by `requeue` from `key_from` to `key_to` gets
its `key` field updated to `key_to`, and a timeout unlinks a waiter from the
queue named by its (current) `key` field, leaving other queues untouched; so
after `requeue(&A, 0, 100, &B, ∞)` moves timed waiter 1 to `&B` and the timeout
fires, `&B`'s queue is empty and a newly enqueued waiter 2 on `&B` is woken by
`wake(&B, 1)`. -/
theorem requeue_updates_waiter_key :
    (∀ (s : FutexState) (a b : Key) (wc expected : Nat) (rc : Option Nat),
      a ≠ b → s.mem a = expected →
      ∀ w ∈ ((s.queues a).drop wc).take
          (rc.getD ((s.queues a).drop wc).length),
        (futexRequeue s a wc expected b rc).2.2.waiterKey w = b) ∧
    (∀ (s : FutexState) (w : WaiterId),
      (futexTimeout s w).queues (s.waiterKey w)
        = (s.queues (s.waiterKey w)).erase w ∧
      ∀ k, k ≠ s.waiterKey w → (futexTimeout s w).queues k = s.queues k) ∧
    ((futexRequeue requeueTimedState 0 0 100 1 none).2.2.waiterKey 1 = 1 ∧
      (futexRequeue requeueTimedState 0 0 100 1 none).2.2.queues 1 = [1] ∧
      (futexRequeue requeueTimedState 0 0 100 1 none).2.2.queues 0 = [] ∧
      (futexTimeout (futexRequeue requeueTimedState 0 0 100 1 none).2.2
        1).queues 1 = [] ∧
      (futexWake
        (enqueueWaiter
          (futexTimeout (futexRequeue requeueTimedState 0 0 100 1 none).2.2 1)
          1 2) 1 (some 1)).2.1 = [2]) := by
  refine ⟨fun s a b wc expected rc hab hv w hw => ?_,
    fun s w => ⟨by simp [futexTimeout], fun k hk => by simp [futexTimeout, hk]⟩,
    by decide⟩
  have hw2 : w ∈ ((s.queues a).drop wc).take
      (rc.getD ((s.queues a).length - wc)) := by simpa using hw
  simp [futexRequeue, hab, hv, hw2]

/-- Witness for C3: the moved waiter 1 of the requeue-then-timeout scenario has
its `key` field set to key 1, and a timeout on an unrelated state leaves a
different key's queue untouched. -/
theorem requeue_updates_waiter_key_witness :
    (0 : Key) ≠ 1 ∧ requeueTimedState.mem 0 = 100 ∧
      1 ∈ ((requeueTimedState.queues 0).drop 0).take
        ((none : Option Nat).getD ((requeueTimedState.queues 0).drop 0).length) ∧
      (futexRequeue requeueTimedState 0 0 100 1 none).2.2.waiterKey 1 = 1 ∧
      ((5 : Key) ≠ requeueTimedState.waiterKey 1 ∧
        (futexTimeout requeueTimedState 1).queues 5
          = requeueTimedState.queues 5) :=
  ⟨by decide, by decide, by decide,
    requeue_updates_waiter_key.1 requeueTimedState 0 1 0 100 none (by decide)
      (by decide) 1 (by decide),
    by decide,
    (requeue_updates_waiter_key.2.1 requeueTimedState 1).2 5 (by decide)⟩

/-- Scenario state for timeout cleanup: the 1 ns `wait(&futex, 1, 1ns)` of
waiter 1 parked and then timed out, unlinking itself. -/
def timedOutState : FutexState :=
  futexTimeout (futexWaitEnter (initState fun _ => 1) 0 1 (some 1) 1).2 1

/-- Claim C4: a `wait` that returns `TimedOut` has unlinked its waiter from its
queue (given the queue's waiters are distinct, the timed-out waiter is no longer
queued and never absorbs a later wakeup); after `wait(&futex, 1, 1ns)` times
out, enqueueing waiter 2 on `&futex` and calling `wake(&futex, 1)` wakes 2. -/
theorem timed_out_waiter_unlinked :
    (∀ (s : FutexState) (w : WaiterId),
      (s.queues (s.waiterKey w)).Nodup →
      w ∉ (futexTimeout s w).queues (s.waiterKey w)) ∧
    ((futexWaitEnter (initState fun _ => 1) 0 1 (some 1) 1).1
        = WaitEnter.parked ∧
      (futexWaitEnter (initState fun _ => 1) 0 1 (some 1) 1).2.queues 0
        = [1] ∧
      timedOutState.queues 0 = [] ∧
      (futexWake (enqueueWaiter timedOutState 0 2) 0 (some 1)).2.1 = [2]) := by
  refine ⟨fun s w h => ?_, by decide⟩
  simpa [futexTimeout] using h.not_mem_erase

/-- Witness for C4: with waiters 1 and 2 queued on key 0, waiter 1's timeout
removes it from its queue. -/
theorem timed_out_waiter_unlinked_witness :
    ((enqueueAll (initState fun _ => 1) 0 [1, 2]).queues
        ((enqueueAll (initState fun _ => 1) 0 [1, 2]).waiterKey 1)).Nodup ∧
      1 ∉ (futexTimeout (enqueueAll (initState fun _ => 1) 0 [1, 2]) 1).queues
        ((enqueueAll (initState fun _ => 1) 0 [1, 2]).waiterKey 1) :=
  ⟨by decide,
    timed_out_waiter_unlinked.1 (enqueueAll (initState fun _ => 1) 0 [1, 2]) 1
      (by decide)⟩

/-- Phases of one `wait` call with a finite relative timeout, against the
monotonic clock (nanoseconds). -/
inductive WaitPhase where
  | entered (now : Nat)
  | parkedAt (deadline : Nat)
  | returned (st : Status) (now : Nat)
deriving DecidableEq, Repr

/-- Modelled from the spec: the kernel futex implementation and the host
scheduler's deadline-aware park are absent from the sources.  Per §4.1 step 6
and §6, a `wait` entered at monotonic time `t0` with finite relative timeout
`T` parks with absolute deadline `t0 + T`; the park reports `DeadlineExpired`
(so `wait` returns `TimedOut`) only at a monotonic time at or after the
deadline, while a matching wake (`wait` returns `Ok`) may arrive at any time. -/
inductive WaitStep (T : Nat) : WaitPhase → WaitPhase → Prop where
  | park (t0 : Nat) : WaitStep T (.entered t0) (.parkedAt (t0 + T))
  | expire (d t : Nat) (h : d ≤ t) :
      WaitStep T (.parkedAt d) (.returned .TimedOut t)
  | wake (d t : Nat) : WaitStep T (.parkedAt d) (.returned .Ok t)

/-- Claim C10: every `wait` with finite timeout `T` that returns `TimedOut`
does so at a monotonic time at least `T` after syscall entry: if the call
entered at `t0` and returned `TimedOut` at `t1`, then `t0 + T ≤ t1` — on every
invocation. -/
theorem timed_out_after_deadline (T t0 t1 : Nat) (p : WaitPhase)
    (h1 : WaitStep T (.entered t0) p)
    (h2 : WaitStep T p (.returned .TimedOut t1)) :
    t0 + T ≤ t1 := by
  cases h1
  cases h2
  assumption

/-- Witness for C10: a 500 ms wait entered at time 0 and expiring at time
600000000 ns elapsed at least 500000000 ns. -/
theorem timed_out_after_deadline_witness :
    WaitStep 500000000 (.entered 0) (.parkedAt (0 + 500000000)) ∧
      WaitStep 500000000 (.parkedAt (0 + 500000000))
        (.returned .TimedOut 600000000) ∧
      0 + 500000000 ≤ 600000000 :=
  ⟨WaitStep.park 0, WaitStep.expire _ _ (by decide),
    timed_out_after_deadline 500000000 0 600000000 _ (WaitStep.park 0)
      (WaitStep.expire _ _ (by decide))⟩

/-- Modelled from the spec: §4.5's intrusive WaitQueue — a head pointer, a
tail pointer and per-node successor pointers, `none` being the empty sentinel.
The kernel futex implementation is absent from the sources. -/
structure LinkedQueue where
  head : Option WaiterId
  tail : Option WaiterId
  next : WaiterId → Option WaiterId

/-- The empty intrusive queue. -/
def emptyQueue : LinkedQueue := ⟨none, none, fun _ => none⟩

/-- Modelled from the spec: `push_back` — link a node at the back of the
queue, updating the tail pointer (and the head pointer when the queue was
empty). -/
def pushBack (q : LinkedQueue) (w : WaiterId) : LinkedQueue :=
  match q.tail with
  | none => ⟨some w, some w, fun v => if v = w then none else q.next v⟩
  | some t =>
      ⟨q.head, some w,
        fun v => if v = w then none else if v = t then some w else q.next v⟩

/-- Modelled from the spec: `pop_front` — unlink and return the head node,
pulling the tail pointer to empty when the queue becomes empty. -/
def popFront (q : LinkedQueue) : Option WaiterId × LinkedQueue :=
  match q.head with
  | none => (none, q)
  | some h =>
      (some h,
        ⟨q.next h, if q.next h = none then none else q.tail,
          fun v => if v = h then none else q.next v⟩)

/-- Modelled from the spec: the predecessor search of arbitrary-node removal —
walk the successor chain from `c` for at most `fuel` steps; once the successor
of `c` is `w`, rewire `c` past `w`, pulling the tail pointer back onto `c`
when `w` was the tail. -/
def removeAfter (q : LinkedQueue) (w : WaiterId) : Nat → WaiterId → LinkedQueue
  | 0, _ => q
  | fuel + 1, c =>
    match q.next c with
    | none => q
    | some d =>
      if d = w then
        ⟨q.head, if q.tail = some w then some c else q.tail,
          fun v => if v = w then none else if v = c then q.next w else q.next v⟩
      else removeAfter q w fuel d

/-- Modelled from the spec: removal of an arbitrary node (the timeout and
cancellation path), updating head and tail pointers as §4.5 requires. -/
def removeNode (q : LinkedQueue) (w : WaiterId) (fuel : Nat) : LinkedQueue :=
  match q.head with
  | none => q
  | some h =>
    if h = w then
      ⟨q.next w, if q.tail = some w then none else q.tail,
        fun v => if v = w then none else q.next v⟩
    else removeAfter q w fuel h

/-- Modelled from the spec: `drain_upto` — the pop-front loop of `wake`,
returning the popped nodes in FIFO order. -/
def drainUpto : Nat → LinkedQueue → List WaiterId × LinkedQueue
  | 0, q => ([], q)
  | n + 1, q =>
    match popFront q with
    | (none, q1) => ([], q1)
    | (some h, q1) =>
      let r := drainUpto n q1
      (h :: r.1, r.2)

/-- A successor-pointer chain segment: starting from the optional node `o`,
the nodes of `l` are linked in order by `next`, and the successor of the last
node of `l` (or `o` itself when `l` is empty) is `e`. -/
inductive ChainSeg (next : WaiterId → Option WaiterId) :
    Option WaiterId → List WaiterId → Option WaiterId → Prop where
  | nil (o : Option WaiterId) : ChainSeg next o [] o
  | cons (a : WaiterId) {l : List WaiterId} {e : Option WaiterId}
      (h : ChainSeg next (next a) l e) : ChainSeg next (some a) (a :: l) e

/-- The intrusive queue `q` represents the FIFO sequence `l` (§4.5 integrity):
the chain from the head pointer lists exactly `l` and terminates at the empty
sentinel, the tail pointer names the last node of `l`, and the nodes are
distinct. -/
def Represents (q : LinkedQueue) (l : List WaiterId) : Prop :=
  ChainSeg q.next q.head l none ∧ q.tail = l.getLast? ∧ l.Nodup

theorem chainSeg_frame {next nxt : WaiterId → Option WaiterId}
    {o e : Option WaiterId} {l : List WaiterId} (h : ChainSeg next o l e)
    (hsame : ∀ x ∈ l, nxt x = next x) : ChainSeg nxt o l e := by
  induction h with
  | nil o => exact ChainSeg.nil o
  | cons a h ih =>
    refine ChainSeg.cons a ?_
    rw [hsame a (List.mem_cons_self a _)]
    exact ih fun x hx => hsame x (List.mem_cons_of_mem a hx)

theorem chainSeg_append {next : WaiterId → Option WaiterId}
    {o m e : Option WaiterId} {la lb : List WaiterId}
    (ha : ChainSeg next o la m) :
    ChainSeg next m lb e → ChainSeg next o (la ++ lb) e := by
  induction ha with
  | nil o => exact fun hb => hb
  | cons a h ih => exact fun hb => ChainSeg.cons a (ih hb)

theorem chainSeg_split {next : WaiterId → Option WaiterId}
    {o e : Option WaiterId} (la : List WaiterId) {lb : List WaiterId}
    (h : ChainSeg next o (la ++ lb) e) :
    ∃ m, ChainSeg next o la m ∧ ChainSeg next m lb e := by
  induction la generalizing o with
  | nil => exact ⟨o, ChainSeg.nil o, h⟩
  | cons a la ih =>
    cases h with
    | cons _ h =>
      obtain ⟨m, hm1, hm2⟩ := ih h
      exact ⟨m, ChainSeg.cons a hm1, hm2⟩

theorem chainSeg_nil_eq {next : WaiterId → Option WaiterId}
    {o e : Option WaiterId} (h : ChainSeg next o [] e) : o = e := by
  cases h
  rfl

theorem chainSeg_cons_inv {next : WaiterId → Option WaiterId}
    {o e : Option WaiterId} {a : WaiterId} {l : List WaiterId}
    (h : ChainSeg next o (a :: l) e) :
    o = some a ∧ ChainSeg next (next a) l e := by
  cases h with
  | cons _ h => exact ⟨rfl, h⟩

theorem chainSeg_singleton {next : WaiterId → Option WaiterId} {a : WaiterId}
    {e : Option WaiterId} (h : next a = e) : ChainSeg next (some a) [a] e := by
  refine ChainSeg.cons a ?_
  rw [h]
  exact ChainSeg.nil e

theorem chainSeg_concat_next {next : WaiterId → Option WaiterId}
    {o e : Option WaiterId} {l : List WaiterId} {x : WaiterId}
    (h : ChainSeg next o (l ++ [x]) e) : next x = e := by
  obtain ⟨m, _, h2⟩ := chainSeg_split l h
  exact chainSeg_nil_eq (chainSeg_cons_inv h2).2

theorem popFront_represents {q : LinkedQueue} {a : WaiterId}
    {t : List WaiterId} (h : Represents q (a :: t)) :
    (popFront q).1 = some a ∧ Represents (popFront q).2 t := by
  obtain ⟨hc, ht, hd⟩ := h
  obtain ⟨hh, hc'⟩ := chainSeg_cons_inv hc
  have hat : a ∉ t := (List.nodup_cons.mp hd).1
  have hpop : popFront q =
      (some a,
        ⟨q.next a, if q.next a = none then none else q.tail,
          fun v => if v = a then none else q.next v⟩) := by
    simp only [popFront, hh]
  rw [hpop]
  refine ⟨rfl, ?_, ?_, (List.nodup_cons.mp hd).2⟩
  · exact chainSeg_frame hc' fun x hx => by
      have : x ≠ a := fun hxa => hat (hxa ▸ hx)
      simp [this]
  · rcases t with _ | ⟨b, t'⟩
    · have : q.next a = none := chainSeg_nil_eq hc'
      simp [this]
    · have hb : q.next a = some b := (chainSeg_cons_inv hc').1
      have : ¬q.next a = none := by simp [hb]
      simp only [this, if_false]
      rw [ht, List.getLast?_cons_cons]

theorem pushBack_represents {q : LinkedQueue} {l : List WaiterId}
    {x : WaiterId} (h : Represents q l) (hx : x ∉ l) :
    Represents (pushBack q x) (l ++ [x]) := by
  obtain ⟨hc, ht, hd⟩ := h
  rcases List.eq_nil_or_concat' l with rfl | ⟨l', t, rfl⟩
  · have hh : q.head = none := chainSeg_nil_eq hc
    have htl : q.tail = none := by simpa using ht
    have hpush : pushBack q x =
        ⟨some x, some x, fun v => if v = x then none else q.next v⟩ := by
      simp only [pushBack, htl]
    rw [hpush]
    refine ⟨chainSeg_singleton (by simp), by simp, by simp⟩
  · have htl : q.tail = some t := by
      rw [ht, List.getLast?_concat]
    have htx : t ≠ x := fun hteq => hx (by simp [hteq])
    have hxl : x ∉ l' := fun hmem => hx (by simp [hmem])
    have htl' : t ∉ l' := by
      have := List.disjoint_of_nodup_append hd
      exact fun hmem => this hmem (by simp)
    have hpush : pushBack q x =
        ⟨q.head, some x,
          fun v => if v = x then none else if v = t then some x else q.next v⟩ := by
      simp only [pushBack, htl]
    rw [hpush]
    obtain ⟨m, hm1, hm2⟩ := chainSeg_split l' hc
    have hmt : m = some t := (chainSeg_cons_inv hm2).1
    subst hmt
    refine ⟨?_, by rw [List.getLast?_concat], ?_⟩
    · have seg1 : ChainSeg
          (fun v => if v = x then none else if v = t then some x else q.next v)
          q.head l' (some t) :=
        chainSeg_frame hm1 fun y hy => by
          have hyx : y ≠ x := fun hyeq => hxl (hyeq ▸ hy)
          have hyt : y ≠ t := fun hyeq => htl' (hyeq ▸ hy)
          simp [hyx, hyt]
      have seg2 : ChainSeg
          (fun v => if v = x then none else if v = t then some x else q.next v)
          (some t) [t] (some x) := chainSeg_singleton (by simp [htx])
      have seg3 : ChainSeg
          (fun v => if v = x then none else if v = t then some x else q.next v)
          (some x) [x] none := chainSeg_singleton (by simp)
      exact chainSeg_append (chainSeg_append seg1 seg2) seg3
    · refine List.Nodup.append hd (by simp) ?_
      intro y hy hyx
      rw [List.mem_singleton] at hyx
      exact hx (hyx ▸ hy)

theorem drainUpto_succ (n : Nat) (q q2 : LinkedQueue) (a : WaiterId)
    (h : popFront q = (some a, q2)) :
    drainUpto (n + 1) q = (a :: (drainUpto n q2).1, (drainUpto n q2).2) := by
  conv_lhs => rw [drainUpto]
  rw [h]

theorem drain_all_fifo {l : List WaiterId} :
    ∀ {q : LinkedQueue}, Represents q l → (drainUpto l.length q).1 = l := by
  induction l with
  | nil => intro q _; rfl
  | cons a t ih =>
    intro q h
    obtain ⟨h1, h2⟩ := popFront_represents h
    have hp : popFront q = (some a, (popFront q).2) := by
      rw [← h1]
    rw [List.length_cons, drainUpto_succ t.length q (popFront q).2 a hp]
    simp [ih h2]

theorem represents_tail_integrity {q : LinkedQueue} {l : List WaiterId}
    (h : Represents q l) :
    (l = [] → q.head = none ∧ q.tail = none) ∧
    (l ≠ [] → ∃ t, q.tail = some t ∧ q.next t = none) := by
  obtain ⟨hc, ht, _⟩ := h
  constructor
  · rintro rfl
    exact ⟨chainSeg_nil_eq hc, by simpa using ht⟩
  · intro hne
    rcases List.eq_nil_or_concat' l with rfl | ⟨l', t, rfl⟩
    · exact absurd rfl hne
    · refine ⟨t, ?_, chainSeg_concat_next hc⟩
      rw [ht, List.getLast?_concat]

theorem not_mem_append_singleton {w c : WaiterId} {pre : List WaiterId}
    (hwp : w ∉ pre) (hwc : w ≠ c) : w ∉ pre ++ [c] := by
  simp only [List.mem_append, List.mem_singleton]
  rintro (hmem | hmem)
  · exact hwp hmem
  · exact hwc hmem

theorem removeAfter_represents :
    ∀ (fuel : Nat) (q : LinkedQueue) (w c : WaiterId)
      (pre suf : List WaiterId),
      Represents q (pre ++ c :: suf) → w ∉ pre → w ≠ c →
      suf.length ≤ fuel →
      Represents (removeAfter q w fuel c) ((pre ++ c :: suf).erase w) := by
  intro fuel
  induction fuel with
  | zero =>
    intro q w c pre suf h hwp hwc hlen
    have hsuf : suf = [] := List.eq_nil_of_length_eq_zero (Nat.le_zero.mp hlen)
    subst hsuf
    rw [List.erase_of_not_mem (not_mem_append_singleton hwp hwc)]
    exact h
  | succ fuel ih =>
    intro q w c pre suf h hwp hwc hlen
    obtain ⟨hc, ht, hnd⟩ := h
    obtain ⟨m, hpre, hrest⟩ := chainSeg_split pre hc
    have hm : m = some c := (chainSeg_cons_inv hrest).1
    subst hm
    have hcsuf : ChainSeg q.next (q.next c) suf none :=
      (chainSeg_cons_inv hrest).2
    rcases suf with _ | ⟨d, suf⟩
    · have hnc : q.next c = none := chainSeg_nil_eq hcsuf
      have hrw : removeAfter q w (fuel + 1) c = q := by
        simp only [removeAfter, hnc]
      rw [hrw, List.erase_of_not_mem (not_mem_append_singleton hwp hwc)]
      exact ⟨hc, ht, hnd⟩
    · have hnc : q.next c = some d := (chainSeg_cons_inv hcsuf).1
      have hdsuf : ChainSeg q.next (q.next d) suf none :=
        (chainSeg_cons_inv hcsuf).2
      by_cases hdw : d = w
      · have hrw : removeAfter q w (fuel + 1) c =
            ⟨q.head, if q.tail = some w then some c else q.tail,
              fun v => if v = w then none
                else if v = c then q.next w else q.next v⟩ := by
          simp only [removeAfter, hnc]
          rw [if_pos hdw]
        rw [hdw] at hnc hdsuf ht hnd
        rw [hrw]
        have hcw : c ≠ w := Ne.symm hwc
        have herase : (pre ++ c :: w :: suf).erase w = pre ++ c :: suf := by
          rw [List.erase_append_right _ hwp,
            List.erase_cons_tail (by simpa using hcw), List.erase_cons_head]
        have hdis := List.disjoint_of_nodup_append hnd
        have hcpre : c ∉ pre := fun hmem => hdis hmem (by simp)
        have hndtail := hnd.of_append_right
        have hcnotin : c ∉ w :: suf := (List.nodup_cons.mp hndtail).1
        have hcsuf' : c ∉ suf := fun hmem => hcnotin (by simp [hmem])
        have hwsuf : w ∉ suf :=
          (List.nodup_cons.mp (List.nodup_cons.mp hndtail).2).1
        rw [hdw, herase]
        refine ⟨?_, ?_, ?_⟩
        · have seg1 : ChainSeg
              (fun v => if v = w then none
                else if v = c then q.next w else q.next v)
              q.head pre (some c) :=
            chainSeg_frame hpre fun y hy => by
              have hyw : y ≠ w := fun e => hwp (e ▸ hy)
              have hyc : y ≠ c := fun e => hcpre (e ▸ hy)
              simp [hyw, hyc]
          have seg2 : ChainSeg
              (fun v => if v = w then none
                else if v = c then q.next w else q.next v)
              (some c) [c] (q.next w) := chainSeg_singleton (by simp [hcw])
          have seg3 : ChainSeg
              (fun v => if v = w then none
                else if v = c then q.next w else q.next v)
              (q.next w) suf none :=
            chainSeg_frame hdsuf fun y hy => by
              have hyw : y ≠ w := fun e => hwsuf (e ▸ hy)
              have hyc : y ≠ c := fun e => hcsuf' (e ▸ hy)
              simp [hyw, hyc]
          have hall := chainSeg_append (chainSeg_append seg1 seg2) seg3
          have hlist : (pre ++ [c]) ++ suf = pre ++ c :: suf := by simp
          rw [hlist] at hall
          exact hall
        · rcases suf with _ | ⟨e, suf'⟩
          · have htw : q.tail = some w := by
              rw [ht, List.getLast?_append_cons]
              simp
            rw [if_pos htw, List.getLast?_concat]
          · have ht' : q.tail = (e :: suf').getLast? := by
              rw [ht, List.getLast?_append_cons, List.getLast?_cons_cons,
                List.getLast?_cons_cons]
            have htw : ¬q.tail = some w := by
              rw [ht', List.getLast?_eq_getLast (e :: suf') (by simp)]
              intro hcon
              have hlast := List.getLast_mem
                (show (e :: suf') ≠ [] by simp)
              rw [Option.some_inj.mp hcon] at hlast
              exact hwsuf (by simpa using hlast)
            rw [if_neg htw, ht', List.getLast?_append_cons,
              List.getLast?_cons_cons]
        · have := List.Nodup.erase w hnd
          rw [herase] at this
          exact this
      · have hrw : removeAfter q w (fuel + 1) c = removeAfter q w fuel d := by
          simp only [removeAfter, hnc]
          rw [if_neg hdw]
        have hlist : pre ++ c :: d :: suf = (pre ++ [c]) ++ d :: suf := by simp
        rw [hrw, hlist]
        have hlen' : suf.length ≤ fuel := by
          rw [List.length_cons] at hlen
          exact Nat.succ_le_succ_iff.mp hlen
        refine ih q w d (pre ++ [c]) suf ?_
          (not_mem_append_singleton hwp hwc) (fun e => hdw e.symm) hlen'
        rw [← hlist]
        exact ⟨hc, ht, hnd⟩

theorem removeNode_represents {q : LinkedQueue} {l : List WaiterId}
    (w : WaiterId) {fuel : Nat} (h : Represents q l)
    (hfuel : l.length ≤ fuel) :
    Represents (removeNode q w fuel) (l.erase w) := by
  obtain ⟨hc, ht, hnd⟩ := h
  rcases l with _ | ⟨a, t⟩
  · have hh : q.head = none := chainSeg_nil_eq hc
    have hrw : removeNode q w fuel = q := by
      simp only [removeNode, hh]
    rw [hrw]
    exact ⟨hc, ht, hnd⟩
  · have hh : q.head = some a := (chainSeg_cons_inv hc).1
    have hc' : ChainSeg q.next (q.next a) t none := (chainSeg_cons_inv hc).2
    have hat : a ∉ t := (List.nodup_cons.mp hnd).1
    by_cases haw : a = w
    · have hrw : removeNode q w fuel =
          ⟨q.next w, if q.tail = some w then none else q.tail,
            fun v => if v = w then none else q.next v⟩ := by
        simp only [removeNode, hh]
        rw [if_pos haw]
      rw [hrw, ← haw, List.erase_cons_head]
      refine ⟨?_, ?_, (List.nodup_cons.mp hnd).2⟩
      · exact chainSeg_frame hc' fun y hy => by
          have hya : y ≠ a := fun e => hat (e ▸ hy)
          simp [hya]
      · rcases t with _ | ⟨b, t'⟩
        · have htw : q.tail = some a := by simpa using ht
          rw [if_pos htw]
          rfl
        · have ht' : q.tail = (b :: t').getLast? := by
            rw [ht, List.getLast?_cons_cons]
          have htw : ¬q.tail = some a := by
            rw [ht', List.getLast?_eq_getLast (b :: t') (by simp)]
            intro hcon
            have hlast := List.getLast_mem (show (b :: t') ≠ [] by simp)
            rw [Option.some_inj.mp hcon] at hlast
            exact hat (by simpa using hlast)
          rw [if_neg htw]
          exact ht'
    · have hrw : removeNode q w fuel = removeAfter q w fuel a := by
        simp only [removeNode, hh]
        rw [if_neg haw]
      rw [hrw]
      have hlen : t.length ≤ fuel := by
        rw [List.length_cons] at hfuel
        exact Nat.le_of_succ_le hfuel
      exact removeAfter_represents fuel q w a [] t ⟨hc, ht, hnd⟩ (by simp)
        (fun e => haw e.symm) hlen

/-- Scenario queue A (second list-handling regression): waiters 1 and 2
enqueued, the tail waiter 2 removed by timeout, waiter 3 enqueued
afterwards. -/
def tailRemovedQueue : LinkedQueue :=
  pushBack (removeNode (pushBack (pushBack emptyQueue 1) 2) 2 2) 3

/-- Scenario queue B (third list-handling regression): waiters 1, 2 and 3
enqueued, the head waiter 1 removed by timeout, waiter 4 enqueued
afterwards. -/
def headRemovedQueue : LinkedQueue :=
  pushBack (removeNode (pushBack (pushBack (pushBack emptyQueue 1) 2) 3) 1 3) 4

/-- Claim C5: removing any single node from a WaitQueue keeps the head and
tail pointers consistent — the removed-from queue again represents its node
sequence, the tail points at a node whose successor is the empty sentinel (or
head and tail read empty when the queue emptied), later `push_back`s stay
reachable and FIFO draining (the pop loop of `wake`) returns every represented
node; concretely, when the last of two waiters is removed a later-enqueued
waiter is still drained (`[1, 3]`), and when the first of three is removed a
fourth can be enqueued and all three remaining are drained (`[2, 3, 4]`). -/
theorem wait_queue_removal_integrity :
    (∀ (q : LinkedQueue) (l : List WaiterId) (w : WaiterId) (fuel : Nat),
      Represents q l → l.length ≤ fuel →
      Represents (removeNode q w fuel) (l.erase w)) ∧
    (∀ (q : LinkedQueue) (l : List WaiterId) (w : WaiterId) (fuel : Nat),
      Represents q l → l.length ≤ fuel →
      (l.erase w = [] → (removeNode q w fuel).head = none ∧
        (removeNode q w fuel).tail = none) ∧
      (l.erase w ≠ [] → ∃ t, (removeNode q w fuel).tail = some t ∧
        (removeNode q w fuel).next t = none)) ∧
    (∀ (q : LinkedQueue) (l : List WaiterId) (x : WaiterId),
      Represents q l → x ∉ l → Represents (pushBack q x) (l ++ [x])) ∧
    (∀ (q : LinkedQueue) (l : List WaiterId),
      Represents q l → (drainUpto l.length q).1 = l) ∧
    ((drainUpto 2 tailRemovedQueue).1 = [1, 3] ∧
      (drainUpto 3 headRemovedQueue).1 = [2, 3, 4]) :=
  ⟨fun _ _ w _ h hf => removeNode_represents w h hf,
    fun _ _ w _ h hf => represents_tail_integrity (removeNode_represents w h hf),
    fun _ _ _ h hx => pushBack_represents h hx,
    fun _ _ h => drain_all_fifo h,
    by decide, by decide⟩

/-- The two-node queue 1, 2 built by `push_back` represents `[1, 2]`. -/
theorem represents_one_two :
    Represents (pushBack (pushBack emptyQueue 1) 2) [1, 2] :=
  pushBack_represents
    (pushBack_represents ⟨ChainSeg.nil none, rfl, List.nodup_nil⟩
      (by simp)) (by simp)

/-- Witness for C5: removing the tail waiter 2 from the represented queue
`[1, 2]` leaves a queue representing `[1]`. -/
theorem wait_queue_removal_integrity_witness :
    Represents (pushBack (pushBack emptyQueue 1) 2) [1, 2] ∧
      ([1, 2] : List WaiterId).length ≤ 2 ∧
      Represents (removeNode (pushBack (pushBack emptyQueue 1) 2) 2 2)
        (([1, 2] : List WaiterId).erase 2) :=
  ⟨represents_one_two, by decide,
    wait_queue_removal_integrity.1 (pushBack (pushBack emptyQueue 1) 2)
      [1, 2] 2 2 represents_one_two (by decide)⟩

end Magenta.Futex
